import Mathlib

/-!
Verification of the sandboxed-filesystem server core: the path policy
(`SecurityConfig.is_path_allowed`, `check_file_size`) and the file
operations (`read_file`, `write_file`, `create_file`, `edit_file`,
`search_in_files`), shallowly embedded from `mcp_server.py`.

File content is modelled as `List Char` (a Python `str` is a sequence of
code points).  The Python string builtins used by the code — `in`,
`str.count`, `str.replace` — are modelled character by character with
Python's exact semantics: `count` and `replace` act on non-overlapping
occurrences scanned left to right, and the empty needle is contained in
every string with `count("") = len + 1`.
-/

namespace VoidMcp

/-- Python `old in s` (substring test): `old` is a prefix of some suffix
of `s`.  Note `pyContains [] s = true`, matching Python. -/
def pyContains (old : List Char) : List Char → Bool
  | [] => old.isPrefixOf []
  | c :: t => old.isPrefixOf (c :: t) || pyContains old t

/-- Scanner for Python `s.count(old)` with a non-empty needle.  The `skip`
argument consumes characters already matched by a previous occurrence, so
that counting is over non-overlapping occurrences, scanned left to right,
exactly as CPython does. -/
def pyCountAux (old : List Char) : Nat → List Char → Nat
  | _, [] => 0
  | 0, c :: t =>
    if old.isPrefixOf (c :: t) then pyCountAux old (old.length - 1) t + 1
    else pyCountAux old 0 t
  | k + 1, _ :: t => pyCountAux old k t

/-- Python `s.count(old)`: non-overlapping occurrences, left to right;
for the empty needle CPython returns `len(s) + 1`. -/
def pyCount (old s : List Char) : Nat :=
  match old with
  | [] => s.length + 1
  | _ :: _ => pyCountAux old 0 s

/-- Scanner for Python `s.split(old)` with a non-empty separator (the
greedy non-overlapping decomposition underlying `count`/`replace`). -/
def pySplitAux (old : List Char) : Nat → List Char → List (List Char)
  | _, [] => [[]]
  | 0, c :: t =>
    if old.isPrefixOf (c :: t) then [] :: pySplitAux old (old.length - 1) t
    else
      match pySplitAux old 0 t with
      | [] => [[c]]
      | p :: ps => (c :: p) :: ps
  | k + 1, _ :: t => pySplitAux old k t

/-- The greedy decomposition of `s` by `old`: `s` is the parts joined by
`old`, and the number of separators is exactly `pyCount old s`.  For the
empty needle this is the decomposition CPython's `replace` uses (a slot
before every character and after the last one). -/
def pySplit (old s : List Char) : List (List Char) :=
  match old with
  | [] => [[]] ++ s.map (fun c => [c]) ++ [[]]
  | _ :: _ => pySplitAux old 0 s

/-- Scanner for Python `s.replace(old, new)` with a non-empty needle. -/
def pyReplaceAllAux (old new : List Char) : Nat → List Char → List Char
  | _, [] => []
  | 0, c :: t =>
    if old.isPrefixOf (c :: t) then new ++ pyReplaceAllAux old new (old.length - 1) t
    else c :: pyReplaceAllAux old new 0 t
  | k + 1, _ :: t => pyReplaceAllAux old new k t

/-- Python `s.replace(old, new)`: every non-overlapping occurrence,
left to right.  For the empty needle CPython inserts `new` before every
character and after the last one. -/
def pyReplaceAll (old new s : List Char) : List Char :=
  match old with
  | [] => new ++ s.flatMap (fun c => c :: new)
  | _ :: _ => pyReplaceAllAux old new 0 s

/-- Python `s.replace(old, new, 1)` with a non-empty needle: only the
leftmost occurrence is replaced. -/
def pyReplace1Aux (old new : List Char) : List Char → List Char
  | [] => []
  | c :: t =>
    if old.isPrefixOf (c :: t) then new ++ (c :: t).drop old.length
    else c :: pyReplace1Aux old new t

/-- Python `s.replace(old, new, 1)`.  For the empty needle CPython
prepends `new` once. -/
def pyReplace1 (old new s : List Char) : List Char :=
  match old with
  | [] => new ++ s
  | _ :: _ => pyReplace1Aux old new s

/-- Join a list of parts with a separator (specification-side inverse of
`pySplit`, used to state what `replace` does). -/
def joinSep (sep : List Char) : List (List Char) → List Char
  | [] => []
  | [p] => p
  | p :: ps => p ++ sep ++ joinSep sep ps

/-- Python `str.lower()` (per-character lowering). -/
def lowerStr (s : String) : String :=
  String.mk (s.data.map Char.toLower)

/-- A canonical absolute path, as produced by `Path(p).resolve()`: the
list of path components below the filesystem root, with symlinks
followed and `.`/`..` collapsed by the resolver. -/
abbrev Canon := List String

/-- `str(abs_path)` for a canonical absolute POSIX path. -/
def canonStr (c : Canon) : String :=
  c.foldl (fun acc seg => acc ++ "/" ++ seg) ""

/-- `str(abs_path).split(os.sep)` for a canonical absolute path
`/s1/.../sn`: the leading separator contributes one empty field, then
the components (each component of a canonical path is non-empty and
contains no separator). -/
def pathSplit (c : Canon) : List String :=
  "" :: c

/-- `Path.name`: the final component (`''` for the root). -/
def pathName (c : Canon) : String :=
  c.getLastD ""

/-- `PurePath.suffix`: the extension of the final component, i.e. the
part from the last dot on, unless that dot is the first or the last
character of the name (CPython: `0 < i < len(name) - 1`). -/
def pySuffix (name : String) : String :=
  match (name.data.reverse.findIdx? (fun c => c = '.')) with
  | none => ""
  | some j =>
    let i := name.data.length - 1 - j
    if 0 < i ∧ i < name.data.length - 1 then String.mk (name.data.drop i) else ""

/-- The model filesystem backing one operation: the OS path resolver
plus the queries the server makes.  `content c = none` models a file
whose bytes do not decode as UTF-8 (`UnicodeDecodeError`). -/
structure FS where
  resolve : String → Canon
  pathExists : Canon → Bool
  is_file : Canon → Bool
  size : Canon → Nat
  content : Canon → Option (List Char)

/-- Byte length of the UTF-8 encoding of a string (what
`os.path.getsize` reports for a freshly written text file). -/
def utf8Len (l : List Char) : Nat :=
  (l.map Char.utf8Size).sum

/-- Writing `data` to canonical path `c` with `open(c, 'w')`: the target
becomes a regular file holding `data`; everything else is unchanged. -/
def FS.writeContent (fs : FS) (c : Canon) (data : List Char) : FS where
  resolve := fs.resolve
  pathExists := fun c2 => if c2 = c then true else fs.pathExists c2
  is_file := fun c2 => if c2 = c then true else fs.is_file c2
  size := fun c2 => if c2 = c then utf8Len data else fs.size c2
  content := fun c2 => if c2 = c then some data else fs.content c2

/-- The state of a `SecurityConfig` object after `__init__`/`load_config`
(configuration is loaded once and read-only thereafter). -/
structure SecurityConfig where
  allowed_root : String
  blocked_patterns : List String
  allowed_extensions : List String
  max_file_size : Nat

/-- `startswith`/pattern test for one entry of `blocked_patterns` against
the canonical path: `*.`-patterns test the end of `str(abs_path)`, all
others test for a literal path component. -/
def patMatches (abs_path : Canon) (pat : String) : Bool :=
  if pat.data.take 2 = "*.".data then
    (pat.data.drop 1).isSuffixOf (canonStr abs_path).data
  else
    (pathSplit abs_path).contains pat

/-- The `for pattern in self.blocked_patterns` loop: the first matching
pattern, if any (the loop returns on the first match). -/
def findBlocked (abs_path : Canon) : List String → Option String
  | [] => none
  | pat :: rest =>
    if patMatches abs_path pat then some pat else findBlocked abs_path rest

/-- The reason string the loop produces for a matching pattern. -/
def blockedReason (pat : String) : String :=
  if pat.data.take 2 = "*.".data then "Blocked file extension: " ++ pat
  else "Blocked pattern: " ++ pat

/-- `SecurityConfig.is_path_allowed`: resolve the candidate path and the
allowed root, require the root to be a component-wise ancestor
(`Path.relative_to` succeeds exactly then), scan the blocked patterns in
order, and, when the target is a regular file or does not exist, check
the lowered non-empty extension against the allow-list. -/
def is_path_allowed (cfg : SecurityConfig) (fs : FS) (path : String) : Bool × String :=
  let abs_path := fs.resolve path
  let allowed_root := fs.resolve cfg.allowed_root
  if allowed_root.isPrefixOf abs_path = false then
    (false, "Path outside allowed directory: " ++ canonStr allowed_root)
  else
    match findBlocked abs_path cfg.blocked_patterns with
    | some pat => (false, blockedReason pat)
    | none =>
      if fs.is_file abs_path || !fs.pathExists abs_path then
        let ext := lowerStr (pySuffix (pathName abs_path))
        if ext != "" && !(cfg.allowed_extensions.contains ext) then
          (false, "File extension not allowed: " ++ ext)
        else
          (true, "OK")
      else
        (true, "OK")

/-- `SecurityConfig.check_file_size`. -/
def check_file_size (cfg : SecurityConfig) (fs : FS) (c : Canon) : Bool × String :=
  if fs.size c > cfg.max_file_size then
    (false, "File too large: " ++ toString (fs.size c) ++ " bytes (max: " ++
      toString cfg.max_file_size ++ ")")
  else
    (true, "OK")

/-- Typed outcome of `read_file` (the code serialises each case to a
distinct message string). -/
inductive ReadResult where
  | accessDenied (reason : String)
  | fileNotFound
  | notAFile
  | tooLarge (reason : String)
  | decodeError
  | ok (content : List Char)
deriving DecidableEq

/-- `read_file`: policy check, existence, regular-file, size ceiling,
then decode and return the full content. -/
def read_file (cfg : SecurityConfig) (fs : FS) (path : String) : ReadResult :=
  if (is_path_allowed cfg fs path).1 = false then
    .accessDenied (is_path_allowed cfg fs path).2
  else
    let abs_path := fs.resolve path
    if fs.pathExists abs_path = false then .fileNotFound
    else if fs.is_file abs_path = false then .notAFile
    else if (check_file_size cfg fs abs_path).1 = false then
      .tooLarge (check_file_size cfg fs abs_path).2
    else
      match fs.content abs_path with
      | none => .decodeError
      | some content => .ok content

/-- Typed outcome of `write_file`.  `writeError` models the
`except` branch: `open(abs_path, 'w')` raises when the target is an
existing directory.  `wrote existed` carries the `Updated`/`Created`
distinction of the success message. -/
inductive WriteResult where
  | accessDenied (reason : String)
  | writeError
  | wrote (existed : Bool)
deriving DecidableEq

/-- `write_file`: policy check, create parents, then overwrite or create
the target with the given content. -/
def write_file (cfg : SecurityConfig) (fs : FS) (path : String) (content : List Char) :
    WriteResult × FS :=
  if (is_path_allowed cfg fs path).1 = false then
    (.accessDenied (is_path_allowed cfg fs path).2, fs)
  else
    let abs_path := fs.resolve path
    if fs.pathExists abs_path && !fs.is_file abs_path then
      (.writeError, fs)
    else
      (.wrote (fs.pathExists abs_path), fs.writeContent abs_path content)

/-- Typed outcome of `create_file`. -/
inductive CreateResult where
  | accessDenied (reason : String)
  | alreadyExists
  | created
deriving DecidableEq

/-- `create_file`: policy check, then fail if the target exists, else
create parents and write the initial content. -/
def create_file (cfg : SecurityConfig) (fs : FS) (path : String) (content : List Char) :
    CreateResult × FS :=
  if (is_path_allowed cfg fs path).1 = false then
    (.accessDenied (is_path_allowed cfg fs path).2, fs)
  else
    let abs_path := fs.resolve path
    if fs.pathExists abs_path then
      (.alreadyExists, fs)
    else
      (.created, fs.writeContent abs_path content)

/-- Typed outcome of `edit_file`.  `oldNotFound` is the content-level
miss ("old_string not found in ..."), distinct from the path-level
`fileNotFound`; `ambiguous count` is the uniqueness-gate failure
("old_string appears {count} times ..."). -/
inductive EditResult where
  | accessDenied (reason : String)
  | fileNotFound
  | notAFile
  | tooLarge (reason : String)
  | decodeError
  | oldNotFound
  | ambiguous (count : Nat)
  | success (replacements : Nat)
deriving DecidableEq

/-- `edit_file`: policy, existence, regular-file and size checks, load
the content, require `old_string in content`, apply the uniqueness gate
when `replace_all` is false, then replace (all occurrences, or exactly
the first) and write the new content back. -/
def edit_file (cfg : SecurityConfig) (fs : FS) (file_path : String)
    (old_string new_string : List Char) (replace_all : Bool) : EditResult × FS :=
  if (is_path_allowed cfg fs file_path).1 = false then
    (.accessDenied (is_path_allowed cfg fs file_path).2, fs)
  else
    let abs_path := fs.resolve file_path
    if fs.pathExists abs_path = false then (.fileNotFound, fs)
    else if fs.is_file abs_path = false then (.notAFile, fs)
    else if (check_file_size cfg fs abs_path).1 = false then
      (.tooLarge (check_file_size cfg fs abs_path).2, fs)
    else
      match fs.content abs_path with
      | none => (.decodeError, fs)
      | some content =>
        if pyContains old_string content = false then (.oldNotFound, fs)
        else if replace_all = false ∧ pyCount old_string content > 1 then
          (.ambiguous (pyCount old_string content), fs)
        else
          let new_content :=
            if replace_all then pyReplaceAll old_string new_string content
            else pyReplace1 old_string new_string content
          let replacements :=
            if replace_all then pyCount old_string content else 1
          (.success replacements, fs.writeContent abs_path new_content)

/-- Python `str.strip()` on a line (used only to build the reported
match text). -/
def pyStrip (l : List Char) : List Char :=
  ((l.dropWhile Char.isWhitespace).reverse.dropWhile Char.isWhitespace).reverse

/-- `f.readlines()`: the lines of the content, each keeping its
terminating newline; no trailing empty line is produced. -/
def pyReadlines : List Char → List (List Char)
  | [] => []
  | c :: t =>
    if c = '\n' then ['\n'] :: pyReadlines t
    else
      match pyReadlines t with
      | [] => [[c]]
      | l :: ls => (c :: l) :: ls

/-- `str(file_path.relative_to(search_path))` for a discovered file
below the search root. -/
def relPathStr (root fp : Canon) : String :=
  String.intercalate "/" (fp.drop root.length)

/-- The per-file inner loop of `search_in_files`: the
`"{rel_path}:{i}: {line.strip()}"` entries for the 1-based lines whose
lowered text contains the lowered search term. -/
def fileResults (search_term : List Char) (rel_path : String)
    (lines : List (List Char)) : List String :=
  lines.enum.filterMap fun p =>
    if pyContains (search_term.map Char.toLower) (p.2.map Char.toLower) then
      some (rel_path ++ ":" ++ toString (p.1 + 1) ++ ": " ++ String.mk (pyStrip p.2))
    else none

/-- The `results` list accumulated by `search_in_files` over the files
`found` discovered by `search_path.rglob(file_pattern)` (in discovery
order): files failing the per-file policy re-check, non-files, and
unreadable files are silently skipped. -/
def searchResults (cfg : SecurityConfig) (fs : FS) (search_path : Canon)
    (search_term : List Char) (found : List Canon) : List String :=
  found.flatMap fun fp =>
    if (is_path_allowed cfg fs (canonStr fp)).1 = false then []
    else if fs.is_file fp = false then []
    else
      match fs.content fp with
      | none => []
      | some content =>
        fileResults search_term (relPathStr search_path fp) (pyReadlines content)

/-- `search_in_files`: policy check on the directory, collect the
matches, then emit at most 50 of them, reporting the number of omitted
extras when more were found. -/
def search_in_files (cfg : SecurityConfig) (fs : FS) (directory : String)
    (search_term : List Char) (found : List Canon) : String :=
  if (is_path_allowed cfg fs directory).1 = false then
    "Access denied: " ++ (is_path_allowed cfg fs directory).2
  else
    let results := searchResults cfg fs (fs.resolve directory) search_term found
    if results ≠ [] then
      let count := results.length
      let limited := results.take 50
      let output := String.intercalate "\n" limited
      if count > 50 then
        output ++ "\n\n... and " ++ toString (count - 50) ++ " more results"
      else output
    else
      "No matches found for '" ++ String.mk search_term ++ "'"

/-- The `blocked_patterns` list set in `SecurityConfig.__init__`. -/
def defaultBlockedPatterns : List String :=
  [".git", ".env", ".ssh", "node_modules", "__pycache__", ".venv", "venv",
   "*.key", "*.pem", "*.p12", "id_rsa", "id_ed25519"]

/-- The `allowed_extensions` list set in `SecurityConfig.__init__`. -/
def defaultAllowedExtensions : List String :=
  [".py", ".js", ".ts", ".jsx", ".tsx",
   ".java", ".c", ".cpp", ".h", ".hpp",
   ".go", ".rs", ".rb", ".php",
   ".html", ".css", ".scss", ".json",
   ".md", ".txt", ".yaml", ".yml",
   ".toml", ".ini", ".cfg", ".xml"]

/-- The configuration state after `__init__` when no `mcp_config.json`
overrides anything: the default lists, the fixed 10 MB ceiling, and
`allowed_root` as configured (or the working directory). -/
def initialConfig (root : String) : SecurityConfig where
  allowed_root := root
  blocked_patterns := defaultBlockedPatterns
  allowed_extensions := defaultAllowedExtensions
  max_file_size := 10 * 1024 * 1024

/-- A small concrete filesystem for witnesses: the sandbox root `/work`
holds a text file, a 3-character file `aaa.txt`, a subdirectory, and a
version-control metadata directory; every unknown path resolves outside
the root (e.g. through `..` traversal or a symlink). -/
def sampleFS : FS where
  resolve := fun s =>
    if s = "/work" then ["work"]
    else if s = "/work/notes.txt" then ["work", "notes.txt"]
    else if s = "/work/aaa.txt" then ["work", "aaa.txt"]
    else if s = "/work/sub" then ["work", "sub"]
    else if s = "/work/.git/config" then ["work", ".git", "config"]
    else if s = "/work/tool.exe" then ["work", "tool.exe"]
    else if s = "/work/sub/../../etc/passwd" then ["etc", "passwd"]
    else ["etc", "other"]
  pathExists := fun c =>
    c = ["work"] || c = ["work", "notes.txt"] || c = ["work", "aaa.txt"] || c = ["work", "sub"]
  is_file := fun c => c = ["work", "notes.txt"] || c = ["work", "aaa.txt"]
  size := fun c =>
    if c = ["work", "notes.txt"] then 9 else if c = ["work", "aaa.txt"] then 3 else 0
  content := fun c =>
    if c = ["work", "notes.txt"] then some ("ab ab ab!".data)
    else if c = ["work", "aaa.txt"] then some ("aaa".data)
    else none

/-- The sample configuration: defaults with root `/work`. -/
def sampleCfg : SecurityConfig := initialConfig "/work"

/-! ### Lemmas about the Python string primitives -/

theorem pyContains_nil_left (s : List Char) : pyContains [] s = true := by
  cases s <;> simp [pyContains, List.isPrefixOf]

theorem prefix_decomp {old s : List Char} (h : old.isPrefixOf s = true) :
    s = old ++ s.drop old.length := by
  obtain ⟨r, hr⟩ := List.isPrefixOf_iff_prefix.mp h
  rw [← hr, List.drop_left]

theorem drop_cons_pred {old : List Char} (hne : old ≠ []) (c : Char) (t : List Char) :
    (c :: t).drop old.length = t.drop (old.length - 1) := by
  cases old with
  | nil => exact absurd rfl hne
  | cons o os => simp

theorem prefix_decomp_cons {old : List Char} (hne : old ≠ []) {c : Char} {t : List Char}
    (h : old.isPrefixOf (c :: t) = true) :
    c :: t = old ++ t.drop (old.length - 1) := by
  have h2 := prefix_decomp h
  rwa [drop_cons_pred hne] at h2

/-- Induction along the greedy left-to-right scan: a property holds of
every string if it holds of the empty string, is preserved when the
needle matches at the head (stepping over the match), and is preserved
when it does not (stepping one character). -/
theorem greedy_ind (old : List Char) (P : List Char → Prop)
    (base : P [])
    (matched : ∀ c t, old.isPrefixOf (c :: t) = true → P (t.drop (old.length - 1)) → P (c :: t))
    (unmatched : ∀ c t, old.isPrefixOf (c :: t) = false → P t → P (c :: t)) :
    ∀ s, P s := by
  have H : ∀ n (s : List Char), s.length ≤ n → P s := by
    intro n
    induction n with
    | zero =>
      intro s hs
      cases s with
      | nil => exact base
      | cons c t => simp at hs
    | succ n ih =>
      intro s hs
      cases s with
      | nil => exact base
      | cons c t =>
        cases hm : old.isPrefixOf (c :: t) with
        | true =>
          refine matched c t hm (ih _ ?_)
          have hd := List.length_drop (old.length - 1) t
          simp only [List.length_cons] at hs
          omega
        | false =>
          refine unmatched c t hm (ih t ?_)
          simp only [List.length_cons] at hs
          omega
  intro s
  exact H s.length s le_rfl

theorem pyCountAux_skip (old : List Char) :
    ∀ (t : List Char) (k : Nat), pyCountAux old k t = pyCountAux old 0 (t.drop k) := by
  intro t
  induction t with
  | nil => intro k; cases k <;> rfl
  | cons c t ih =>
    intro k
    cases k with
    | zero => rfl
    | succ k => simpa [pyCountAux] using ih k

theorem pyCountAux_cons_pos {old : List Char} {c : Char} {t : List Char}
    (h : old.isPrefixOf (c :: t) = true) :
    pyCountAux old 0 (c :: t) = pyCountAux old 0 (t.drop (old.length - 1)) + 1 := by
  simp [pyCountAux, h, pyCountAux_skip]

theorem pyCountAux_cons_neg {old : List Char} {c : Char} {t : List Char}
    (h : old.isPrefixOf (c :: t) = false) :
    pyCountAux old 0 (c :: t) = pyCountAux old 0 t := by
  simp [pyCountAux, h]

theorem pySplitAux_skip (old : List Char) :
    ∀ (t : List Char) (k : Nat), pySplitAux old k t = pySplitAux old 0 (t.drop k) := by
  intro t
  induction t with
  | nil => intro k; cases k <;> rfl
  | cons c t ih =>
    intro k
    cases k with
    | zero => rfl
    | succ k => simpa [pySplitAux] using ih k

theorem pySplitAux_cons_pos {old : List Char} {c : Char} {t : List Char}
    (h : old.isPrefixOf (c :: t) = true) :
    pySplitAux old 0 (c :: t) = [] :: pySplitAux old 0 (t.drop (old.length - 1)) := by
  simp [pySplitAux, h, pySplitAux_skip]

theorem pySplitAux_ne_nil (old : List Char) :
    ∀ (s : List Char) (k : Nat), pySplitAux old k s ≠ [] := by
  intro s
  induction s with
  | nil => intro k; cases k <;> simp [pySplitAux]
  | cons c t ih =>
    intro k
    cases k with
    | zero =>
      simp only [pySplitAux]
      split
      · simp
      · split <;> simp
    | succ k => simpa [pySplitAux] using ih k

theorem pySplitAux_cons_neg {old : List Char} {c : Char} {t p : List Char}
    {ps : List (List Char)} (h : old.isPrefixOf (c :: t) = false)
    (hps : pySplitAux old 0 t = p :: ps) :
    pySplitAux old 0 (c :: t) = (c :: p) :: ps := by
  simp [pySplitAux, h, hps]

theorem pyReplaceAllAux_skip (old new : List Char) :
    ∀ (t : List Char) (k : Nat),
      pyReplaceAllAux old new k t = pyReplaceAllAux old new 0 (t.drop k) := by
  intro t
  induction t with
  | nil => intro k; cases k <;> rfl
  | cons c t ih =>
    intro k
    cases k with
    | zero => rfl
    | succ k => simpa [pyReplaceAllAux] using ih k

theorem pyReplaceAllAux_cons_pos {old : List Char} (new : List Char) {c : Char} {t : List Char}
    (h : old.isPrefixOf (c :: t) = true) :
    pyReplaceAllAux old new 0 (c :: t) =
      new ++ pyReplaceAllAux old new 0 (t.drop (old.length - 1)) := by
  simp [pyReplaceAllAux, h, pyReplaceAllAux_skip]

theorem pyReplaceAllAux_cons_neg {old : List Char} (new : List Char) {c : Char} {t : List Char}
    (h : old.isPrefixOf (c :: t) = false) :
    pyReplaceAllAux old new 0 (c :: t) = c :: pyReplaceAllAux old new 0 t := by
  simp [pyReplaceAllAux, h]

theorem joinSep_cons (sep x : List Char) {l : List (List Char)} (h : l ≠ []) :
    joinSep sep (x :: l) = x ++ sep ++ joinSep sep l := by
  cases l with
  | nil => exact absurd rfl h
  | cons p ps => rfl

/-- Greedy split is a decomposition: joining the parts of
`pySplitAux` with the needle recovers the string. -/
theorem joinSep_pySplitAux (old : List Char) (hne : old ≠ []) :
    ∀ s, joinSep old (pySplitAux old 0 s) = s := by
  refine greedy_ind old _ rfl ?_ ?_
  · intro c t hm ih
    rw [pySplitAux_cons_pos hm,
      joinSep_cons old [] (pySplitAux_ne_nil old (t.drop (old.length - 1)) 0), ih]
    simpa using (prefix_decomp_cons hne hm).symm
  · intro c t hm ih
    obtain ⟨p, ps, hps⟩ := List.exists_cons_of_ne_nil (pySplitAux_ne_nil old t 0)
    rw [pySplitAux_cons_neg hm hps]
    cases ps with
    | nil =>
      rw [hps] at ih
      simpa [joinSep] using congrArg (c :: ·) ih
    | cons q qs =>
      rw [hps, joinSep_cons old p (by simp)] at ih
      calc joinSep old ((c :: p) :: q :: qs)
          = (c :: p) ++ old ++ joinSep old (q :: qs) := joinSep_cons old (c :: p) (by simp)
        _ = c :: (p ++ old ++ joinSep old (q :: qs)) := by simp
        _ = c :: t := by rw [ih]

/-- The occurrence count is one less than the number of greedy parts. -/
theorem pyCountAux_split_len (old : List Char) :
    ∀ s, pyCountAux old 0 s + 1 = (pySplitAux old 0 s).length := by
  refine greedy_ind old _ rfl ?_ ?_
  · intro c t hm ih
    rw [pyCountAux_cons_pos hm, pySplitAux_cons_pos hm]
    simp only [List.length_cons]
    omega
  · intro c t hm ih
    obtain ⟨p, ps, hps⟩ := List.exists_cons_of_ne_nil (pySplitAux_ne_nil old t 0)
    rw [pyCountAux_cons_neg hm, pySplitAux_cons_neg hm hps, ih, hps]
    simp

/-- `replace` applied to every occurrence equals the greedy parts joined
with the replacement. -/
theorem pyReplaceAllAux_join (old new : List Char) :
    ∀ s, pyReplaceAllAux old new 0 s = joinSep new (pySplitAux old 0 s) := by
  refine greedy_ind old _ rfl ?_ ?_
  · intro c t hm ih
    rw [pyReplaceAllAux_cons_pos new hm, pySplitAux_cons_pos hm,
      joinSep_cons new [] (pySplitAux_ne_nil old (t.drop (old.length - 1)) 0), ih]
    simp
  · intro c t hm ih
    obtain ⟨p, ps, hps⟩ := List.exists_cons_of_ne_nil (pySplitAux_ne_nil old t 0)
    rw [pyReplaceAllAux_cons_neg new hm, pySplitAux_cons_neg hm hps]
    rw [hps] at ih
    cases ps with
    | nil => simpa [joinSep] using congrArg (c :: ·) ih
    | cons q qs =>
      rw [joinSep_cons new (c :: p) (by simp)]
      rw [joinSep_cons new p (by simp)] at ih
      simpa [List.cons_append] using congrArg (c :: ·) ih

theorem joinSep_map_singleton (new : List Char) :
    ∀ s : List Char, joinSep new (s.map (fun c => [c]) ++ [[]]) =
      s.flatMap (fun c => c :: new) := by
  intro s
  induction s with
  | nil => rfl
  | cons c t ih =>
    rw [List.map_cons, List.cons_append, joinSep_cons new [c] (by simp), ih]
    simp

/-- `joinSep` with the full `pySplit` (empty needle included) recovers
the string. -/
theorem joinSep_pySplit (old s : List Char) : joinSep old (pySplit old s) = s := by
  cases old with
  | nil =>
    have h1 : pySplit [] s = [] :: (s.map (fun c => [c]) ++ [[]]) := by
      simp [pySplit]
    rw [h1, joinSep_cons [] [] (by simp), joinSep_map_singleton []]
    simp
  | cons o os => exact joinSep_pySplitAux (o :: os) (by simp) s

/-- `pyCount` counts the separators of the greedy decomposition. -/
theorem pyCount_pySplit (old s : List Char) : pyCount old s + 1 = (pySplit old s).length := by
  cases old with
  | nil => simp [pyCount, pySplit]
  | cons o os => exact pyCountAux_split_len (o :: os) s

/-- `pyReplaceAll` replaces every separator of the greedy decomposition
by the replacement text. -/
theorem pyReplaceAll_joinSep (old new s : List Char) :
    pyReplaceAll old new s = joinSep new (pySplit old s) := by
  cases old with
  | nil =>
    have h1 : pySplit [] s = [] :: (s.map (fun c => [c]) ++ [[]]) := by
      simp [pySplit]
    rw [pyReplaceAll, h1, joinSep_cons new [] (by simp), joinSep_map_singleton new]
    simp
  | cons o os => exact pyReplaceAllAux_join (o :: os) new s

/-- A positive count implies containment (the first occurrence counted
is a substring). -/
theorem pyCount_pos_contains (old s : List Char) (h : 0 < pyCount old s) :
    pyContains old s = true := by
  cases old with
  | nil => exact pyContains_nil_left s
  | cons o os =>
    refine greedy_ind (o :: os) (fun s => 0 < pyCountAux (o :: os) 0 s →
      pyContains (o :: os) s = true) ?_ ?_ ?_ s (by simpa [pyCount] using h)
    · intro h0
      simp [pyCountAux] at h0
    · intro c t hm _ _
      simp [pyContains, hm]
    · intro c t hm ih h0
      rw [pyCountAux_cons_neg hm] at h0
      simp [pyContains, hm, ih h0]

/-- `pyReplace1Aux` replaces exactly the leftmost occurrence: the string
decomposes around an occurrence, the result substitutes it, and no
occurrence starts earlier. -/
theorem pyReplace1Aux_leftmost (old new : List Char) (hne : old ≠ []) :
    ∀ s, pyContains old s = true →
      ∃ pre post, s = pre ++ old ++ post ∧
        pyReplace1Aux old new s = pre ++ new ++ post ∧
        ∀ pre2 post2, s = pre2 ++ old ++ post2 → pre.length ≤ pre2.length := by
  intro s
  induction s with
  | nil =>
    intro hc
    cases old with
    | nil => exact absurd rfl hne
    | cons o os => simp [pyContains, List.isPrefixOf] at hc
  | cons c t ih =>
    intro hc
    cases hm : old.isPrefixOf (c :: t) with
    | true =>
      refine ⟨[], (c :: t).drop old.length, by simpa using prefix_decomp hm, ?_, ?_⟩
      · simp [pyReplace1Aux, hm]
      · intro pre2 post2 _
        simp
    | false =>
      have hct : pyContains old t = true := by
        simpa [pyContains, hm] using hc
      obtain ⟨pre, post, h1, h2, h3⟩ := ih hct
      refine ⟨c :: pre, post, by simp [h1], ?_, ?_⟩
      · simp [pyReplace1Aux, hm, h2]
      · intro pre2 post2 heq
        cases pre2 with
        | nil =>
          exfalso
          simp only [List.nil_append] at heq
          have : old.isPrefixOf (c :: t) = true :=
            List.isPrefixOf_iff_prefix.mpr ⟨post2, heq.symm⟩
          rw [this] at hm
          cases hm
        | cons d pre2' =>
          simp only [List.cons_append, List.cons.injEq] at heq
          have := h3 pre2' post2 heq.2
          simpa using Nat.succ_le_succ this

/-- Leftmost-replacement property lifted to `pyReplace1`. -/
theorem pyReplace1_leftmost (old new : List Char) (hne : old ≠ []) (s : List Char)
    (hc : pyContains old s = true) :
    ∃ pre post, s = pre ++ old ++ post ∧
      pyReplace1 old new s = pre ++ new ++ post ∧
      ∀ pre2 post2, s = pre2 ++ old ++ post2 → pre.length ≤ pre2.length := by
  cases old with
  | nil => exact absurd rfl hne
  | cons o os => exact pyReplace1Aux_leftmost (o :: os) new (by simp) s hc

theorem utf8Len_replicate (n : Nat) (c : Char) :
    utf8Len (List.replicate n c) = n * c.utf8Size := by
  simp [utf8Len, List.map_replicate, List.sum_replicate, smul_eq_mul]

/-! ### Lemmas about the path policy -/

theorem findBlocked_none {abs_path : Canon} :
    ∀ {ps : List String}, findBlocked abs_path ps = none →
      ∀ pat ∈ ps, patMatches abs_path pat = false := by
  intro ps
  induction ps with
  | nil => intro _ pat hp; cases hp
  | cons q rest ih =>
    intro h pat hp
    cases hq : patMatches abs_path q with
    | true => simp [findBlocked, hq] at h
    | false =>
      simp only [findBlocked, hq, Bool.false_eq_true, if_false] at h
      rcases List.mem_cons.mp hp with rfl | hp2
      · exact hq
      · exact ih h pat hp2

theorem findBlocked_eq_find? (abs_path : Canon) :
    ∀ ps : List String, findBlocked abs_path ps = ps.find? (patMatches abs_path) := by
  intro ps
  induction ps with
  | nil => rfl
  | cons q rest ih =>
    cases hq : patMatches abs_path q with
    | true => simp [findBlocked, hq, List.find?_cons, ih]
    | false => simp [findBlocked, hq, List.find?_cons, ih]

/-- The three facts an `is_path_allowed = true` verdict certifies:
containment of the canonical path, no blocked pattern, and a passing
extension gate whenever that gate applies. -/
theorem policy_parts {cfg : SecurityConfig} {fs : FS} {p : String}
    (h : (is_path_allowed cfg fs p).1 = true) :
    (fs.resolve cfg.allowed_root).isPrefixOf (fs.resolve p) = true
    ∧ findBlocked (fs.resolve p) cfg.blocked_patterns = none
    ∧ ((fs.is_file (fs.resolve p) || !fs.pathExists (fs.resolve p)) = true →
        lowerStr (pySuffix (pathName (fs.resolve p))) = "" ∨
          lowerStr (pySuffix (pathName (fs.resolve p))) ∈ cfg.allowed_extensions) := by
  have hroot : (fs.resolve cfg.allowed_root).isPrefixOf (fs.resolve p) = true := by
    cases hx : (fs.resolve cfg.allowed_root).isPrefixOf (fs.resolve p) with
    | true => rfl
    | false => simp [is_path_allowed, hx] at h
  have hfb : findBlocked (fs.resolve p) cfg.blocked_patterns = none := by
    cases hx : findBlocked (fs.resolve p) cfg.blocked_patterns with
    | none => rfl
    | some pat => simp [is_path_allowed, hroot, hx] at h
  refine ⟨hroot, hfb, ?_⟩
  intro hcase
  by_cases hss : lowerStr (pySuffix (pathName (fs.resolve p))) = ""
  · exact Or.inl hss
  · by_cases hmem : lowerStr (pySuffix (pathName (fs.resolve p))) ∈ cfg.allowed_extensions
    · exact Or.inr hmem
    · exfalso
      simp [is_path_allowed, hroot, hfb, hcase, hss, hmem] at h

/-! ### Claim theorems -/

/-- C1: whenever the canonical (symlink-resolved, dot-collapsed) form of
`p` is not the canonical allowed root or a descendant of it — which is
exactly how a `../`-traversal or symlink escape manifests after
resolution — `is_path_allowed` denies with the containment reason built
from the canonical root; moreover the whole verdict is a function of the
canonical path only, never of the raw input string. -/
theorem c1_containment_denies_on_canonical (cfg : SecurityConfig) (fs : FS) (p : String)
    (h : (fs.resolve cfg.allowed_root).isPrefixOf (fs.resolve p) = false) :
    is_path_allowed cfg fs p =
      (false, "Path outside allowed directory: " ++ canonStr (fs.resolve cfg.allowed_root))
    ∧ ∀ q, fs.resolve q = fs.resolve p →
        is_path_allowed cfg fs q = is_path_allowed cfg fs p := by
  constructor
  · simp [is_path_allowed, h]
  · intro q hq
    simp only [is_path_allowed, hq]

/-- Witness for C1: the sample path that traverses out of the sandbox
root via `..` resolves outside `/work` and is denied with the
containment reason. -/
theorem c1_containment_denies_on_canonical_witness :
    (sampleFS.resolve sampleCfg.allowed_root).isPrefixOf
        (sampleFS.resolve "/work/sub/../../etc/passwd") = false
    ∧ (is_path_allowed sampleCfg sampleFS "/work/sub/../../etc/passwd" =
        (false, "Path outside allowed directory: " ++
          canonStr (sampleFS.resolve sampleCfg.allowed_root))
      ∧ ∀ q, sampleFS.resolve q = sampleFS.resolve "/work/sub/../../etc/passwd" →
          is_path_allowed sampleCfg sampleFS q =
            is_path_allowed sampleCfg sampleFS "/work/sub/../../etc/passwd") :=
  ⟨by decide,
   c1_containment_denies_on_canonical sampleCfg sampleFS "/work/sub/../../etc/passwd" (by decide)⟩

/-- C3: a blocked non-glob pattern occurring as any component of the
canonical path — at any depth — makes `is_path_allowed` deny; the
blocked-pattern list is scanned in order with the first matching pattern
winning (`findBlocked` is `List.find?`), and when containment passes the
deny reason names that first matching pattern. -/
theorem c3_blocked_segment_denies (cfg : SecurityConfig) (fs : FS) (p : String) :
    (∀ pat, pat ∈ cfg.blocked_patterns → pat.data.take 2 ≠ "*.".data →
      (pathSplit (fs.resolve p)).contains pat = true →
      (is_path_allowed cfg fs p).1 = false)
    ∧ findBlocked (fs.resolve p) cfg.blocked_patterns =
        cfg.blocked_patterns.find? (patMatches (fs.resolve p))
    ∧ (∀ pat, (fs.resolve cfg.allowed_root).isPrefixOf (fs.resolve p) = true →
        findBlocked (fs.resolve p) cfg.blocked_patterns = some pat →
        is_path_allowed cfg fs p = (false, blockedReason pat))
    ∧ (∀ pat : String, pat.data.take 2 ≠ "*.".data →
        blockedReason pat = "Blocked pattern: " ++ pat) := by
  refine ⟨?_, findBlocked_eq_find? (fs.resolve p) cfg.blocked_patterns, ?_, ?_⟩
  · intro pat hmem hglob hseg
    cases hroot : (fs.resolve cfg.allowed_root).isPrefixOf (fs.resolve p) with
    | false => simp [is_path_allowed, hroot]
    | true =>
      cases hfb : findBlocked (fs.resolve p) cfg.blocked_patterns with
      | some q => simp [is_path_allowed, hroot, hfb]
      | none =>
        exfalso
        have hseg2 : pat ∈ pathSplit (fs.resolve p) := by simpa using hseg
        have hmatch : patMatches (fs.resolve p) pat = true := by
          simp [patMatches, hglob, hseg2]
        have := findBlocked_none hfb pat hmem
        rw [this] at hmatch
        cases hmatch
  · intro pat hroot hfb
    simp [is_path_allowed, hroot, hfb]
  · intro pat hglob
    simp [blockedReason, hglob]

/-- Witness for C3: `/work/.git/config` contains the blocked component
`.git` and is denied with the reason naming it. -/
theorem c3_blocked_segment_denies_witness :
    (is_path_allowed sampleCfg sampleFS "/work/.git/config").1 = false
    ∧ is_path_allowed sampleCfg sampleFS "/work/.git/config" =
        (false, blockedReason ".git") :=
  ⟨(c3_blocked_segment_denies sampleCfg sampleFS "/work/.git/config").1 ".git"
      (by decide) (by decide) (by decide),
   (c3_blocked_segment_denies sampleCfg sampleFS "/work/.git/config").2.2.1 ".git"
      (by decide) (by decide)⟩

/-- C4: under a passing containment check and blocked-pattern scan, the
extension allow-list step applies exactly when the target is a regular
file or does not exist: an existing non-file (directory) target skips it
and is allowed; when it applies, a non-empty extension whose lowered
form is not in `allowed_extensions` is denied with the
extension-not-allowed reason, and a path with no extension passes; and
when every allowed extension is already lowercase (as all defaults are),
the lowered-membership test the code performs is exactly a
case-insensitive membership test. -/
theorem c4_extension_gate (cfg : SecurityConfig) (fs : FS) (p : String)
    (hroot : (fs.resolve cfg.allowed_root).isPrefixOf (fs.resolve p) = true)
    (hfb : findBlocked (fs.resolve p) cfg.blocked_patterns = none) :
    (fs.pathExists (fs.resolve p) = true → fs.is_file (fs.resolve p) = false →
      is_path_allowed cfg fs p = (true, "OK"))
    ∧ ((fs.is_file (fs.resolve p) = true ∨ fs.pathExists (fs.resolve p) = false) →
        lowerStr (pySuffix (pathName (fs.resolve p))) ≠ "" →
        lowerStr (pySuffix (pathName (fs.resolve p))) ∉ cfg.allowed_extensions →
        is_path_allowed cfg fs p =
          (false, "File extension not allowed: " ++
            lowerStr (pySuffix (pathName (fs.resolve p)))))
    ∧ ((fs.is_file (fs.resolve p) = true ∨ fs.pathExists (fs.resolve p) = false) →
        pySuffix (pathName (fs.resolve p)) = "" →
        is_path_allowed cfg fs p = (true, "OK"))
    ∧ ((∀ e ∈ cfg.allowed_extensions, lowerStr e = e) →
        ∀ ext : String, (lowerStr ext ∉ cfg.allowed_extensions ↔
          ∀ e ∈ cfg.allowed_extensions, lowerStr ext ≠ lowerStr e)) := by
  refine ⟨?_, ?_, ?_, ?_⟩
  · intro hex hisf
    simp [is_path_allowed, hroot, hfb, hex, hisf]
  · intro hcase hss hmem
    have hcase2 : (fs.is_file (fs.resolve p) || !fs.pathExists (fs.resolve p)) = true := by
      rcases hcase with hc | hc <;> simp [hc]
    simp [is_path_allowed, hroot, hfb, hcase2, hss, hmem]
  · intro hcase hsuf
    have hcase2 : (fs.is_file (fs.resolve p) || !fs.pathExists (fs.resolve p)) = true := by
      rcases hcase with hc | hc <;> simp [hc]
    simp [is_path_allowed, hroot, hfb, hcase2, hsuf, lowerStr]
  · intro hlow ext
    constructor
    · intro hni e hmem heq
      rw [hlow e hmem] at heq
      exact hni (heq ▸ hmem)
    · intro hall hmem
      exact hall (lowerStr ext) hmem (by rw [hlow (lowerStr ext) hmem])

/-- Witness for C4: `/work/tool.exe` does not exist, has extension
`.exe`, which is not in the allow-list, and is denied; the default
allow-list is all-lowercase so the case-insensitivity reading applies. -/
theorem c4_extension_gate_witness :
    ((sampleFS.is_file (sampleFS.resolve "/work/tool.exe") = true ∨
        sampleFS.pathExists (sampleFS.resolve "/work/tool.exe") = false)
      ∧ lowerStr (pySuffix (pathName (sampleFS.resolve "/work/tool.exe"))) ≠ ""
      ∧ lowerStr (pySuffix (pathName (sampleFS.resolve "/work/tool.exe"))) ∉
          sampleCfg.allowed_extensions)
    ∧ is_path_allowed sampleCfg sampleFS "/work/tool.exe" =
        (false, "File extension not allowed: " ++
          lowerStr (pySuffix (pathName (sampleFS.resolve "/work/tool.exe")))) :=
  ⟨⟨Or.inr (by decide), by decide, by decide⟩,
   (c4_extension_gate sampleCfg sampleFS "/work/tool.exe" (by decide) (by decide)).2.1
     (Or.inr (by decide)) (by decide) (by decide)⟩

/-- For an allowed, existing, regular, size-conforming, decodable file,
`edit_file` reduces to the pure content-stage computation (lines
337–365 of the source): the substring gate, the uniqueness gate, and the
replacement/write. -/
theorem edit_file_stage (cfg : SecurityConfig) (fs : FS) (path : String)
    (old_string new_string : List Char) (replace_all : Bool) {cont : List Char}
    (hallow : (is_path_allowed cfg fs path).1 = true)
    (hex : fs.pathExists (fs.resolve path) = true)
    (hfile : fs.is_file (fs.resolve path) = true)
    (hsize : fs.size (fs.resolve path) ≤ cfg.max_file_size)
    (hcont : fs.content (fs.resolve path) = some cont) :
    edit_file cfg fs path old_string new_string replace_all =
      (if pyContains old_string cont = false then (.oldNotFound, fs)
       else if replace_all = false ∧ pyCount old_string cont > 1 then
         (.ambiguous (pyCount old_string cont), fs)
       else
         (.success (if replace_all then pyCount old_string cont else 1),
          fs.writeContent (fs.resolve path)
            (if replace_all then pyReplaceAll old_string new_string cont
             else pyReplace1 old_string new_string cont))) := by
  have hnl : ¬(fs.size (fs.resolve path) > cfg.max_file_size) := by omega
  simp [edit_file, hallow, hex, hfile, check_file_size, hnl, hcont]

/-- C5: for an allowed, existing, readable, size-conforming file whose
content does not contain `old_string`, `edit_file` fails with the
content-level miss (`oldNotFound`, distinct from the path-level
`fileNotFound`) and the filesystem — in particular the file content —
is unchanged. -/
theorem c5_content_miss (cfg : SecurityConfig) (fs : FS) (path : String)
    (old_string new_string : List Char) (replace_all : Bool) (cont : List Char)
    (hallow : (is_path_allowed cfg fs path).1 = true)
    (hex : fs.pathExists (fs.resolve path) = true)
    (hfile : fs.is_file (fs.resolve path) = true)
    (hsize : fs.size (fs.resolve path) ≤ cfg.max_file_size)
    (hcont : fs.content (fs.resolve path) = some cont)
    (hnc : pyContains old_string cont = false) :
    edit_file cfg fs path old_string new_string replace_all = (.oldNotFound, fs) := by
  rw [edit_file_stage cfg fs path old_string new_string replace_all hallow hex hfile hsize hcont]
  simp [hnc]

/-- Witness for C5: editing `notes.txt` (content "ab ab ab!") with an
absent needle fails with the content miss and leaves the state alone. -/
theorem c5_content_miss_witness :
    pyContains "zz".data "ab ab ab!".data = false
    ∧ edit_file sampleCfg sampleFS "/work/notes.txt" "zz".data "X".data false =
        (.oldNotFound, sampleFS) :=
  ⟨by decide,
   c5_content_miss sampleCfg sampleFS "/work/notes.txt" "zz".data "X".data false
     "ab ab ab!".data (by decide) (by decide) (by decide) (by decide) (by decide) (by decide)⟩

/-- C2: for a file containing `old_string` exactly `N > 1` times,
`edit_file` with `replace_all = false` fails with `ambiguous N` and the
state is unchanged; with `replace_all = true` it succeeds reporting
exactly `N` replacements and writes back the content with every one of
the `N` non-overlapping occurrences replaced: the content decomposes
into `N + 1` parts joined by the `N` occurrences of `old_string`, and
the written string joins the same parts with `new_string`. -/
theorem c2_ambiguity_and_replace_all (cfg : SecurityConfig) (fs : FS) (path : String)
    (old_string new_string : List Char) (cont : List Char) (N : Nat)
    (hallow : (is_path_allowed cfg fs path).1 = true)
    (hex : fs.pathExists (fs.resolve path) = true)
    (hfile : fs.is_file (fs.resolve path) = true)
    (hsize : fs.size (fs.resolve path) ≤ cfg.max_file_size)
    (hcont : fs.content (fs.resolve path) = some cont)
    (hN : pyCount old_string cont = N) (h1 : 1 < N) :
    edit_file cfg fs path old_string new_string false = (.ambiguous N, fs)
    ∧ edit_file cfg fs path old_string new_string true =
        (.success N, fs.writeContent (fs.resolve path) (pyReplaceAll old_string new_string cont))
    ∧ pyReplaceAll old_string new_string cont = joinSep new_string (pySplit old_string cont)
    ∧ joinSep old_string (pySplit old_string cont) = cont
    ∧ (pySplit old_string cont).length = N + 1 := by
  have hc : pyContains old_string cont = true := pyCount_pos_contains old_string cont (by omega)
  refine ⟨?_, ?_, pyReplaceAll_joinSep old_string new_string cont,
    joinSep_pySplit old_string cont, ?_⟩
  · rw [edit_file_stage cfg fs path old_string new_string false hallow hex hfile hsize hcont]
    simp [hc, hN, h1]
  · rw [edit_file_stage cfg fs path old_string new_string true hallow hex hfile hsize hcont]
    simp [hc, hN]
  · rw [← hN, ← pyCount_pySplit]

/-- Witness for C2: `notes.txt` holds "ab ab ab!", which contains "ab"
exactly 3 times. -/
theorem c2_ambiguity_and_replace_all_witness :
    pyCount "ab".data "ab ab ab!".data = 3
    ∧ (edit_file sampleCfg sampleFS "/work/notes.txt" "ab".data "X".data false =
        (.ambiguous 3, sampleFS)
      ∧ edit_file sampleCfg sampleFS "/work/notes.txt" "ab".data "X".data true =
          (.success 3, sampleFS.writeContent (sampleFS.resolve "/work/notes.txt")
            (pyReplaceAll "ab".data "X".data "ab ab ab!".data))
      ∧ pyReplaceAll "ab".data "X".data "ab ab ab!".data =
          joinSep "X".data (pySplit "ab".data "ab ab ab!".data)
      ∧ joinSep "ab".data (pySplit "ab".data "ab ab ab!".data) = "ab ab ab!".data
      ∧ (pySplit "ab".data "ab ab ab!".data).length = 3 + 1) :=
  ⟨by decide,
   c2_ambiguity_and_replace_all sampleCfg sampleFS "/work/notes.txt" "ab".data "X".data
     "ab ab ab!".data 3
     (by decide) (by decide) (by decide) (by decide) (by decide) (by decide) (by decide)⟩

/-- C9: for an allowed, existing, readable file with non-empty content,
an edit with the empty `old_string` and `replace_all = false` is not
rejected as invalid and does not report the content miss — the empty
string is a substring of every content — but fails the uniqueness gate
with `ambiguous (length + 1)`, leaving the state unchanged. -/
theorem c9_empty_old_string (cfg : SecurityConfig) (fs : FS) (path : String)
    (new_string : List Char) (cont : List Char)
    (hallow : (is_path_allowed cfg fs path).1 = true)
    (hex : fs.pathExists (fs.resolve path) = true)
    (hfile : fs.is_file (fs.resolve path) = true)
    (hsize : fs.size (fs.resolve path) ≤ cfg.max_file_size)
    (hcont : fs.content (fs.resolve path) = some cont)
    (hne : cont ≠ []) :
    pyContains [] cont = true
    ∧ edit_file cfg fs path [] new_string false = (.ambiguous (cont.length + 1), fs) := by
  refine ⟨pyContains_nil_left cont, ?_⟩
  rw [edit_file_stage cfg fs path [] new_string false hallow hex hfile hsize hcont]
  have hlen : 0 < cont.length := List.length_pos.mpr hne
  have hgt : cont.length + 1 > 1 := by omega
  simp [pyContains_nil_left, pyCount, hgt]

/-- Witness for C9: the empty needle on "ab ab ab!" (9 characters)
yields `ambiguous 10`. -/
theorem c9_empty_old_string_witness :
    "ab ab ab!".data ≠ ([] : List Char)
    ∧ (pyContains [] "ab ab ab!".data = true
      ∧ edit_file sampleCfg sampleFS "/work/notes.txt" [] "X".data false =
          (.ambiguous ("ab ab ab!".data.length + 1), sampleFS)) :=
  ⟨by decide,
   c9_empty_old_string sampleCfg sampleFS "/work/notes.txt" "X".data "ab ab ab!".data
     (by decide) (by decide) (by decide) (by decide) (by decide) (by decide)⟩

/-- C10: the occurrence count behind the uniqueness gate and the
reported replacement count is the number of non-overlapping occurrences
scanned left to right — the content decomposes greedily into
`count + 1` parts joined by the needle — so for content "aaa" and
needle "aa" the count is 1, the gate passes with `replace_all = false`,
and exactly the leftmost occurrence is replaced (the result is
`new_string ++ "a"`); in general the single replacement rewrites the
occurrence with the least possible start position. -/
theorem c10_overlapping_occurrences (cfg : SecurityConfig) (fs : FS) (path : String)
    (new_string : List Char)
    (hallow : (is_path_allowed cfg fs path).1 = true)
    (hex : fs.pathExists (fs.resolve path) = true)
    (hfile : fs.is_file (fs.resolve path) = true)
    (hsize : fs.size (fs.resolve path) ≤ cfg.max_file_size)
    (hcont : fs.content (fs.resolve path) = some ("aaa".data)) :
    pyCount "aa".data "aaa".data = 1
    ∧ edit_file cfg fs path "aa".data new_string false =
        (.success 1, fs.writeContent (fs.resolve path) (new_string ++ "a".data))
    ∧ (∀ old s : List Char, old ≠ [] → pyContains old s = true →
        ∃ pre post, s = pre ++ old ++ post ∧
          pyReplace1 old new_string s = pre ++ new_string ++ post ∧
          ∀ pre2 post2, s = pre2 ++ old ++ post2 → pre.length ≤ pre2.length)
    ∧ (∀ old s : List Char, pyCount old s + 1 = (pySplit old s).length ∧
        joinSep old (pySplit old s) = s) := by
  refine ⟨by decide, ?_,
    fun old s hne hc => pyReplace1_leftmost old new_string hne s hc,
    fun old s => ⟨pyCount_pySplit old s, joinSep_pySplit old s⟩⟩
  rw [edit_file_stage cfg fs path "aa".data new_string false hallow hex hfile hsize hcont]
  have h1 : pyContains "aa".data "aaa".data = true := by decide
  have h2 : pyCount "aa".data "aaa".data = 1 := by decide
  have h3 : pyReplace1 "aa".data new_string "aaa".data = new_string ++ "a".data := rfl
  simp [h1, h2, h3]

/-- Witness for C10: the `aaa.txt` sample file. -/
theorem c10_overlapping_occurrences_witness :
    pyCount "aa".data "aaa".data = 1
    ∧ edit_file sampleCfg sampleFS "/work/aaa.txt" "aa".data "b".data false =
        (.success 1, sampleFS.writeContent (sampleFS.resolve "/work/aaa.txt")
          ("b".data ++ "a".data)) :=
  ⟨by decide,
   ((c10_overlapping_occurrences sampleCfg sampleFS "/work/aaa.txt" "b".data
     (by decide) (by decide) (by decide) (by decide) (by decide)).2.1)⟩

/-- C7: for every allowed path whose target already exists,
`create_file` fails with the already-exists outcome and performs no
write: the returned filesystem is exactly the input one, so the existing
file's content and everything else are unchanged. -/
theorem c7_create_already_exists (cfg : SecurityConfig) (fs : FS) (path : String)
    (content : List Char)
    (hallow : (is_path_allowed cfg fs path).1 = true)
    (hex : fs.pathExists (fs.resolve path) = true) :
    create_file cfg fs path content = (.alreadyExists, fs) := by
  simp [create_file, hallow, hex]

/-- Witness for C7: creating over the existing `notes.txt` fails and
leaves the sample filesystem untouched. -/
theorem c7_create_already_exists_witness :
    (is_path_allowed sampleCfg sampleFS "/work/notes.txt").1 = true
    ∧ create_file sampleCfg sampleFS "/work/notes.txt" "x".data =
        (.alreadyExists, sampleFS) :=
  ⟨by decide,
   c7_create_already_exists sampleCfg sampleFS "/work/notes.txt" "x".data
     (by decide) (by decide)⟩

/-- C8: for every directory, search term and discovered file list, the
output of `search_in_files` is built from at most 50 result entries
(`results.take 50`), and whenever the total match count `M` exceeds 50
the output reports exactly `M - 50` omitted matches (50 shown plus the
reported remainder is exactly `M`). -/
theorem c8_search_truncation (cfg : SecurityConfig) (fs : FS) (directory : String)
    (search_term : List Char) (found : List Canon)
    (hallow : (is_path_allowed cfg fs directory).1 = true)
    (hne : searchResults cfg fs (fs.resolve directory) search_term found ≠ []) :
    ((searchResults cfg fs (fs.resolve directory) search_term found).take 50).length ≤ 50
    ∧ search_in_files cfg fs directory search_term found =
        String.intercalate "\n"
            ((searchResults cfg fs (fs.resolve directory) search_term found).take 50) ++
          (if (searchResults cfg fs (fs.resolve directory) search_term found).length > 50 then
            "\n\n... and " ++
              toString ((searchResults cfg fs (fs.resolve directory) search_term found).length
                - 50) ++ " more results"
          else "")
    ∧ ((searchResults cfg fs (fs.resolve directory) search_term found).length > 50 →
        ((searchResults cfg fs (fs.resolve directory) search_term found).take 50).length = 50
        ∧ 50 + ((searchResults cfg fs (fs.resolve directory) search_term found).length - 50) =
            (searchResults cfg fs (fs.resolve directory) search_term found).length) := by
  refine ⟨?_, ?_, ?_⟩
  · simp [List.length_take]
  · rw [search_in_files]
    simp only [hallow]
    rw [if_neg (by simp)]
    rw [if_pos hne]
    by_cases hgt :
        (searchResults cfg fs (fs.resolve directory) search_term found).length > 50
    · rw [if_pos hgt, if_pos hgt]
      simp [String.append_assoc]
    · rw [if_neg hgt, if_neg hgt]
      simp
  · intro hgt
    constructor
    · simp [List.length_take]
      omega
    · omega

/-- Witness for C8: a one-file search over the sample filesystem finds a
single match, well under the cap. -/
theorem c8_search_truncation_witness :
    searchResults sampleCfg sampleFS (sampleFS.resolve "/work") "ab".data
        [["work", "notes.txt"]] ≠ []
    ∧ search_in_files sampleCfg sampleFS "/work" "ab".data [["work", "notes.txt"]] =
        String.intercalate "\n"
            ((searchResults sampleCfg sampleFS (sampleFS.resolve "/work") "ab".data
              [["work", "notes.txt"]]).take 50) ++
          (if (searchResults sampleCfg sampleFS (sampleFS.resolve "/work") "ab".data
              [["work", "notes.txt"]]).length > 50 then
            "\n\n... and " ++
              toString ((searchResults sampleCfg sampleFS (sampleFS.resolve "/work") "ab".data
                [["work", "notes.txt"]]).length - 50) ++ " more results"
          else "") :=
  ⟨by decide,
   (c8_search_truncation sampleCfg sampleFS "/work" "ab".data [["work", "notes.txt"]]
     (by decide) (by decide)).2.1⟩

/-- A policy verdict of allowed survives writing the target: the
resolver is unchanged, the blocked-pattern scan sees the same canonical
path, and the extension gate — which now definitely applies, the target
being a regular file — already passed before the write (the target
either did not exist or was a regular file, both of which run the
gate). -/
theorem is_path_allowed_after_write (cfg : SecurityConfig) (fs : FS) (p : String)
    (data : List Char)
    (hallow : (is_path_allowed cfg fs p).1 = true)
    (hnd : fs.pathExists (fs.resolve p) = true → fs.is_file (fs.resolve p) = true) :
    is_path_allowed cfg (fs.writeContent (fs.resolve p) data) p = (true, "OK") := by
  obtain ⟨hroot, hfb, hext⟩ := policy_parts hallow
  have hcase : (fs.is_file (fs.resolve p) || !fs.pathExists (fs.resolve p)) = true := by
    cases hx : fs.pathExists (fs.resolve p) with
    | true => simp [hnd hx]
    | false => simp [hx]
  have hok := hext hcase
  rcases hok with hss | hmem
  · simp [is_path_allowed, FS.writeContent, hroot, hfb, hss]
  · simp [is_path_allowed, FS.writeContent, hroot, hfb, hmem]

/-- C6 (amended): for every allowed path whose target is not an
existing directory and every content whose UTF-8 size fits the
configured ceiling, a successful `write_file` followed by `read_file`
on the same path returns exactly the written content. -/
theorem c6_write_read_roundtrip (cfg : SecurityConfig) (fs : FS) (p : String)
    (c : List Char)
    (hallow : (is_path_allowed cfg fs p).1 = true)
    (hnd : fs.pathExists (fs.resolve p) = true → fs.is_file (fs.resolve p) = true)
    (hsize : utf8Len c ≤ cfg.max_file_size) :
    write_file cfg fs p c =
      (.wrote (fs.pathExists (fs.resolve p)), fs.writeContent (fs.resolve p) c)
    ∧ read_file cfg (fs.writeContent (fs.resolve p) c) p = .ok c := by
  constructor
  · have hcnd : (fs.pathExists (fs.resolve p) && !fs.is_file (fs.resolve p)) = false := by
      cases hx : fs.pathExists (fs.resolve p) with
      | true => simp [hnd hx]
      | false => simp [hx]
    simp [write_file, hallow, hcnd]
  · have hpol := is_path_allowed_after_write cfg fs p c hallow hnd
    have hsz : ¬((fs.writeContent (fs.resolve p) c).size (fs.resolve p) > cfg.max_file_size) := by
      show ¬((if fs.resolve p = fs.resolve p then utf8Len c else fs.size (fs.resolve p)) >
        cfg.max_file_size)
      rw [if_pos rfl]
      omega
    have hres2 : (fs.writeContent (fs.resolve p) c).resolve p = fs.resolve p := rfl
    have hex2 : (fs.writeContent (fs.resolve p) c).pathExists (fs.resolve p) = true := by
      show (if fs.resolve p = fs.resolve p then true else fs.pathExists (fs.resolve p)) = true
      rw [if_pos rfl]
    have hisf2 : (fs.writeContent (fs.resolve p) c).is_file (fs.resolve p) = true := by
      show (if fs.resolve p = fs.resolve p then true else fs.is_file (fs.resolve p)) = true
      rw [if_pos rfl]
    have hcont2 : (fs.writeContent (fs.resolve p) c).content (fs.resolve p) = some c := by
      show (if fs.resolve p = fs.resolve p then some c else fs.content (fs.resolve p)) = some c
      rw [if_pos rfl]
    have hck : (check_file_size cfg (fs.writeContent (fs.resolve p) c) (fs.resolve p)).1
        = true := by
      simp [check_file_size, hsz]
    simp [read_file, hpol, hres2, hex2, hisf2, hcont2, hck]

/-- Witness for C6 (amended): writing "hi!" to `notes.txt` and reading
it back returns "hi!". -/
theorem c6_write_read_roundtrip_witness :
    ((is_path_allowed sampleCfg sampleFS "/work/notes.txt").1 = true
      ∧ utf8Len "hi!".data ≤ sampleCfg.max_file_size)
    ∧ (write_file sampleCfg sampleFS "/work/notes.txt" "hi!".data =
        (.wrote (sampleFS.pathExists (sampleFS.resolve "/work/notes.txt")),
         sampleFS.writeContent (sampleFS.resolve "/work/notes.txt") "hi!".data)
      ∧ read_file sampleCfg
          (sampleFS.writeContent (sampleFS.resolve "/work/notes.txt") "hi!".data)
          "/work/notes.txt" = .ok "hi!".data) :=
  ⟨⟨by decide, by decide⟩,
   c6_write_read_roundtrip sampleCfg sampleFS "/work/notes.txt" "hi!".data
     (by decide) (by decide) (by decide)⟩

/-- One byte more than the configured 10 MB ceiling. -/
def bigContent : List Char := List.replicate 10485761 'a'

/-- Counterexample to C6 as stated: on the sample filesystem the write
of a 10 MB + 1 content to the allowed path `/work/notes.txt` succeeds
(the path policy has no size check and `write_file` never consults the
ceiling), yet the subsequent `read_file` of the same path does not
return the written content — it fails the size gate. -/
theorem c6_roundtrip_counterexample :
    (write_file sampleCfg sampleFS "/work/notes.txt" bigContent).1 = .wrote true
    ∧ read_file sampleCfg (write_file sampleCfg sampleFS "/work/notes.txt" bigContent).2
        "/work/notes.txt" ≠ .ok bigContent := by
  have hallow : (is_path_allowed sampleCfg sampleFS "/work/notes.txt").1 = true := by decide
  have habs : sampleFS.resolve "/work/notes.txt" = ["work", "notes.txt"] := by decide
  have hex : sampleFS.pathExists ["work", "notes.txt"] = true := by decide
  have hisf : sampleFS.is_file ["work", "notes.txt"] = true := by decide
  have h2 : (write_file sampleCfg sampleFS "/work/notes.txt" bigContent).2 =
      sampleFS.writeContent ["work", "notes.txt"] bigContent := by
    simp [write_file, hallow, habs, hex, hisf]
  constructor
  · simp [write_file, hallow, habs, hex, hisf]
  · rw [h2]
    have hnd : sampleFS.pathExists (sampleFS.resolve "/work/notes.txt") = true →
        sampleFS.is_file (sampleFS.resolve "/work/notes.txt") = true := fun _ => by decide
    have hpol := is_path_allowed_after_write sampleCfg sampleFS "/work/notes.txt"
      bigContent hallow hnd
    rw [habs] at hpol
    have hpol1 : (is_path_allowed sampleCfg
        (sampleFS.writeContent ["work", "notes.txt"] bigContent) "/work/notes.txt").1 = true := by
      rw [hpol]
    have hsz : (sampleFS.writeContent ["work", "notes.txt"] bigContent).size
        ["work", "notes.txt"] = 10485761 := by
      show (if (["work", "notes.txt"] : Canon) = ["work", "notes.txt"] then utf8Len bigContent
        else sampleFS.size ["work", "notes.txt"]) = 10485761
      rw [if_pos rfl, show bigContent = List.replicate 10485761 'a' from rfl, utf8Len_replicate,
        show Char.utf8Size 'a' = 1 from by decide]
    have hres2 : (sampleFS.writeContent ["work", "notes.txt"] bigContent).resolve
        "/work/notes.txt" = ["work", "notes.txt"] := habs
    have hex2 : (sampleFS.writeContent ["work", "notes.txt"] bigContent).pathExists
        ["work", "notes.txt"] = true := by
      show (if (["work", "notes.txt"] : Canon) = ["work", "notes.txt"] then true
        else sampleFS.pathExists ["work", "notes.txt"]) = true
      rw [if_pos rfl]
    have hisf2 : (sampleFS.writeContent ["work", "notes.txt"] bigContent).is_file
        ["work", "notes.txt"] = true := by
      show (if (["work", "notes.txt"] : Canon) = ["work", "notes.txt"] then true
        else sampleFS.is_file ["work", "notes.txt"]) = true
      rw [if_pos rfl]
    have hck : (check_file_size sampleCfg
        (sampleFS.writeContent ["work", "notes.txt"] bigContent) ["work", "notes.txt"]).1
        = false := by
      simp [check_file_size, hsz, sampleCfg, initialConfig]
    simp [read_file, hpol1, hres2, hex2, hisf2, hck]
